import Mathlib

/-!
Verification of the `switchlike` dispatch function of
src/c++/src/switchlike.cpp.

The source is one C++ function template

  return_type switchlike(input, cases, default_func, predicate)

that iterates the case list in order, calls `predicate(input, key)` on each
case key, invokes the producer of the first case whose predicate call yields
true and returns its result, and invokes `default_func` when no case matches.

The embedding below translates that loop directly:

* `switchlike` is the plain functional translation of lines 131 to 139.
* `switchlikeT` is the same loop instrumented with an event trace recording
  every predicate call (with its result), every producer invocation and any
  invocation of the default producer; it is used to state claims about which
  callables are invoked and in which order.
* `default_predicate` translates the default lambda of lines 127 to 130,
  with the host equality operator abstracted as a boolean function; note the
  source compares `b == a`, key on the left.
* `switchlikeE` and `switchlikeET` thread failure through `Except`,
  embedding C++ exception propagation through a loop that contains no
  try/catch: a raising call aborts the loop and the error reaches the caller.
* `switchlikeConv` makes explicit the two implicit conversions of line 132:
  the loop variable `caze` is a pair whose first component has `input_type`,
  not `case_type`, so each key is converted key-to-input on copy and
  input-to-key again at the predicate call. `switchlike` elides both
  conversions; the relating theorem shows the two agree when the conversions
  are identities, in particular when the two types coincide.

Keys, producers and predicates are modelled as Lean data: producers are
thunks `Unit → return_type`, the predicate a boolean function.
-/

/-- Events recorded by the instrumented dispatcher: a predicate call on the
case at index `i` together with the boolean it returned, a producer
invocation for the case at index `i`, or the invocation of the default
producer. -/
inductive Ev : Type where
  | pred (i : Nat) (b : Bool)
  | prod (i : Nat)
  | deflt
deriving DecidableEq, Repr

/-- Translation of the loop of lines 131 to 139 of switchlike.cpp: try each
case in order, invoke the producer of the first case whose predicate call
returns true, fall back to the default producer. -/
def switchlike {input_type case_type return_type : Type}
    (input : input_type)
    (cases : List (case_type × (Unit → return_type)))
    (default_func : Unit → return_type)
    (predicate : input_type → case_type → Bool) : return_type :=
  match cases with
  | [] => default_func ()
  | caze :: rest =>
    if predicate input caze.1 then (caze.2) ()
    else switchlike input rest default_func predicate

/-- The same loop instrumented with an event trace; `i` is the index of the
first case of the remaining list within the original case list. -/
def switchlikeGo {input_type case_type return_type : Type}
    (predicate : input_type → case_type → Bool) (input : input_type)
    (default_func : Unit → return_type) :
    Nat → List (case_type × (Unit → return_type)) → return_type × List Ev
  | _, [] => (default_func (), [Ev.deflt])
  | i, caze :: rest =>
    if predicate input caze.1 then ((caze.2) (), [Ev.pred i true, Ev.prod i])
    else
      let r := switchlikeGo predicate input default_func (i + 1) rest
      (r.1, Ev.pred i false :: r.2)

/-- Instrumented dispatcher: the result of `switchlike` paired with the trace
of predicate, producer and default-producer invocations. -/
def switchlikeT {input_type case_type return_type : Type}
    (input : input_type)
    (cases : List (case_type × (Unit → return_type)))
    (default_func : Unit → return_type)
    (predicate : input_type → case_type → Bool) : return_type × List Ev :=
  switchlikeGo predicate input default_func 0 cases

/-- Translation of the default value of the `predicate` parameter, lines 127
to 130 of switchlike.cpp: a lambda taking `input_type a` and `case_type b`
and returning `b == a`, the case key on the left of the host equality
operator. The host operator `==` between `case_type` and `input_type` is
abstracted as `eq`. -/
def default_predicate {input_type case_type : Type}
    (eq : case_type → input_type → Bool) :
    input_type → case_type → Bool :=
  fun a b => eq b a

/-- Index of the first element of a list satisfying `p`, if any. Used only
to state which case the specification designates as the match. -/
def firstTrueIdx {α : Type} (p : α → Bool) : List α → Option Nat
  | [] => none
  | a :: as => if p a then some 0 else (firstTrueIdx p as).map (· + 1)

/-- An event is a producer invocation: either a case producer or the default
producer. -/
def isProducerEv : Ev → Bool
  | Ev.prod _ => true
  | Ev.deflt => true
  | Ev.pred _ _ => false

/-- A run of failed predicate calls: the cases at indices `i` to
`i + n - 1`, each tried once and each returning false. -/
def falseRun : Nat → Nat → List Ev
  | _, 0 => []
  | i, n + 1 => Ev.pred i false :: falseRun (i + 1) n

/-- Events of the failure-aware dispatcher: each predicate, producer or
default-producer call either returns normally or raises an error of type
`ε`. -/
inductive EvE (ε : Type) : Type where
  | predOk (i : Nat) (b : Bool)
  | predErr (i : Nat) (e : ε)
  | prodOk (i : Nat)
  | prodErr (i : Nat) (e : ε)
  | defltOk
  | defltErr (e : ε)

/-- The error raised by an event, if that call raised one. -/
def evErr {ε : Type} : EvE ε → Option ε
  | EvE.predErr _ e => some e
  | EvE.prodErr _ e => some e
  | EvE.defltErr e => some e
  | EvE.predOk _ _ => none
  | EvE.prodOk _ => none
  | EvE.defltOk => none

/-- Failure-aware translation of the loop of lines 131 to 139, instrumented
with a trace. The body of `switchlike` contains no try/catch, so in the
embedding every call that raises ends the loop at once and its error is the
result delivered to the caller, unchanged. -/
def switchlikeEGo {input_type case_type return_type err_type : Type}
    (predicate : input_type → case_type → Except err_type Bool)
    (input : input_type)
    (default_func : Unit → Except err_type return_type) :
    Nat → List (case_type × (Unit → Except err_type return_type)) →
      Except err_type return_type × List (EvE err_type)
  | _, [] =>
    match default_func () with
    | Except.ok r => (Except.ok r, [EvE.defltOk])
    | Except.error e => (Except.error e, [EvE.defltErr e])
  | i, caze :: rest =>
    match predicate input caze.1 with
    | Except.error e => (Except.error e, [EvE.predErr i e])
    | Except.ok true =>
      match (caze.2) () with
      | Except.ok r => (Except.ok r, [EvE.predOk i true, EvE.prodOk i])
      | Except.error e => (Except.error e, [EvE.predOk i true, EvE.prodErr i e])
    | Except.ok false =>
      let r := switchlikeEGo predicate input default_func (i + 1) rest
      (r.1, EvE.predOk i false :: r.2)

/-- Failure-aware instrumented dispatcher over the whole case list. -/
def switchlikeET {input_type case_type return_type err_type : Type}
    (input : input_type)
    (cases : List (case_type × (Unit → Except err_type return_type)))
    (default_func : Unit → Except err_type return_type)
    (predicate : input_type → case_type → Except err_type Bool) :
    Except err_type return_type × List (EvE err_type) :=
  switchlikeEGo predicate input default_func 0 cases

/-- Failure-aware dispatcher, result only. -/
def switchlikeE {input_type case_type return_type err_type : Type}
    (input : input_type)
    (cases : List (case_type × (Unit → Except err_type return_type)))
    (default_func : Unit → Except err_type return_type)
    (predicate : input_type → case_type → Except err_type Bool) :
    Except err_type return_type :=
  (switchlikeET input cases default_func predicate).1

/-- Translation of the loop of lines 131 to 139 with the two implicit key
conversions of line 132 made explicit. The loop variable `caze` of the
source is declared as a pair whose first component has `input_type` while
the list elements carry `case_type` keys, so each key is converted by
`convKI` when `caze` is copy-initialised and converted back by `convIK`
when `caze.first` is passed to the `case_type` parameter of the
predicate. -/
def switchlikeConv {input_type case_type return_type : Type}
    (convKI : case_type → input_type) (convIK : input_type → case_type)
    (input : input_type)
    (cases : List (case_type × (Unit → return_type)))
    (default_func : Unit → return_type)
    (predicate : input_type → case_type → Bool) : return_type :=
  match cases with
  | [] => default_func ()
  | c :: rest =>
    let caze : input_type × (Unit → return_type) := (convKI c.1, c.2)
    if predicate input (convIK caze.1) then (caze.2) ()
    else switchlikeConv convKI convIK input rest default_func predicate

/-- The conversion-explicit loop instrumented with the event trace: the
same events as `switchlikeGo`, with the predicate applied to the
round-tripped key exactly as at line 133 of the source. -/
def switchlikeConvGo {input_type case_type return_type : Type}
    (convKI : case_type → input_type) (convIK : input_type → case_type)
    (predicate : input_type → case_type → Bool) (input : input_type)
    (default_func : Unit → return_type) :
    Nat → List (case_type × (Unit → return_type)) → return_type × List Ev
  | _, [] => (default_func (), [Ev.deflt])
  | i, c :: rest =>
    let caze : input_type × (Unit → return_type) := (convKI c.1, c.2)
    if predicate input (convIK caze.1) then
      ((caze.2) (), [Ev.pred i true, Ev.prod i])
    else
      let r := switchlikeConvGo convKI convIK predicate input default_func
        (i + 1) rest
      (r.1, Ev.pred i false :: r.2)

/-- Conversion-explicit instrumented dispatcher over the whole case
list. -/
def switchlikeConvT {input_type case_type return_type : Type}
    (convKI : case_type → input_type) (convIK : input_type → case_type)
    (input : input_type)
    (cases : List (case_type × (Unit → return_type)))
    (default_func : Unit → return_type)
    (predicate : input_type → case_type → Bool) : return_type × List Ev :=
  switchlikeConvGo convKI convIK predicate input default_func 0 cases

/-- Unfolding lemma: a run of length `n + 1` starts with a failed predicate
call at index `i`. -/
theorem falseRun_succ (i n : Nat) :
    falseRun i (n + 1) = Ev.pred i false :: falseRun (i + 1) n := rfl

/-- Every event of a failed run is a predicate call returning false. -/
theorem mem_falseRun {ev : Ev} :
    ∀ {i n : Nat}, ev ∈ falseRun i n → ∃ t, ev = Ev.pred t false := by
  intro i n
  induction n generalizing i with
  | zero => intro h; simp [falseRun] at h
  | succ n ih =>
    intro h
    rw [falseRun_succ] at h
    rcases List.mem_cons.mp h with h | h
    · exact ⟨i, h⟩
    · exact ih h

/-- A failed run expressed over `List.range`. -/
theorem falseRun_eq_map :
    ∀ (n i : Nat), falseRun i n = (List.range n).map fun t => Ev.pred (i + t) false := by
  intro n
  induction n with
  | zero => intro i; rfl
  | succ n ih =>
    intro i
    rw [falseRun_succ, ih (i + 1), List.range_succ_eq_map, List.map_cons, List.map_map]
    refine congrArg₂ _ (by simp) ?_
    apply List.map_congr_left
    intro t _
    simp [Function.comp, Nat.succ_eq_add_one]
    omega

/-- No element of a list satisfies `p` exactly when `firstTrueIdx` finds
nothing. -/
theorem firstTrueIdx_eq_none {α : Type} {p : α → Bool} :
    ∀ {l : List α}, firstTrueIdx p l = none ↔ ∀ a ∈ l, p a = false := by
  intro l
  induction l with
  | nil => simp [firstTrueIdx]
  | cons a rest ih =>
    cases ha : p a with
    | true => simp [firstTrueIdx, ha]
    | false => simp [firstTrueIdx, ha, Option.map_eq_none', ih]

/-- What `firstTrueIdx p l = some m` means: the element at index `m`
satisfies `p` and every earlier element does not. -/
theorem firstTrueIdx_eq_some {α : Type} {p : α → Bool} :
    ∀ {l : List α} {m : Nat}, firstTrueIdx p l = some m →
      (∃ a, l[m]? = some a ∧ p a = true) ∧
        ∀ t, t < m → ∃ b, l[t]? = some b ∧ p b = false := by
  intro l
  induction l with
  | nil => intro m h; simp [firstTrueIdx] at h
  | cons a rest ih =>
    intro m h
    cases ha : p a with
    | true =>
      simp [firstTrueIdx, ha] at h
      subst h
      exact ⟨⟨a, by simp, ha⟩, fun t ht => absurd ht (Nat.not_lt_zero t)⟩
    | false =>
      simp [firstTrueIdx, ha, Option.map_eq_some'] at h
      obtain ⟨m', hm', rfl⟩ := h
      obtain ⟨⟨c, hc, hpc⟩, hlow⟩ := ih hm'
      refine ⟨⟨c, by simpa using hc, hpc⟩, ?_⟩
      intro t ht
      cases t with
      | zero => exact ⟨a, by simp, ha⟩
      | succ t' =>
        obtain ⟨b, hb, hpb⟩ := hlow t' (by omega)
        exact ⟨b, by simpa using hb, hpb⟩

/-- If the element at index `i` satisfies `p` then some index at or before
`i` is the first satisfying index. -/
theorem firstTrueIdx_le_of_true {α : Type} (p : α → Bool) :
    ∀ {l : List α} {i : Nat} {c : α}, l[i]? = some c → p c = true →
      ∃ m, m ≤ i ∧ firstTrueIdx p l = some m := by
  intro l
  induction l with
  | nil => intro i c h _; simp at h
  | cons a rest ih =>
    intro i c h hp
    cases ha : p a with
    | true => exact ⟨0, Nat.zero_le i, by simp [firstTrueIdx, ha]⟩
    | false =>
      cases i with
      | zero =>
        simp at h
        subst h
        exact absurd hp (by simp [ha])
      | succ i' =>
        rw [List.getElem?_cons_succ] at h
        obtain ⟨m', hm', hfirst⟩ := ih h hp
        exact ⟨m' + 1, by omega, by simp [firstTrueIdx, ha, hfirst]⟩

/-- Characterisation of the instrumented loop when no case matches: every
predicate call fails, the default producer runs, and the trace is the full
run of failed calls followed by the default invocation. -/
theorem switchlikeGo_none {input_type case_type return_type : Type}
    (predicate : input_type → case_type → Bool) (input : input_type)
    (default_func : Unit → return_type) :
    ∀ (cases : List (case_type × (Unit → return_type))) (i : Nat),
      firstTrueIdx (fun c => predicate input c.1) cases = none →
      switchlikeGo predicate input default_func i cases
        = (default_func (), falseRun i cases.length ++ [Ev.deflt]) := by
  intro cases
  induction cases with
  | nil => intro i _; rfl
  | cons c rest ih =>
    intro i h
    cases hc : predicate input c.1 with
    | true => simp [firstTrueIdx, hc] at h
    | false =>
      simp [firstTrueIdx, hc, Option.map_eq_none'] at h
      simp [switchlikeGo, hc, ih (i + 1) h, falseRun_succ]

/-- Characterisation of the instrumented loop when the first matching case
has index `m` within the whole list: the result is what the producer of
that case returns, and the trace is the failed predicate calls on the
earlier cases, the successful predicate call, and that one producer
invocation. -/
theorem switchlikeGo_some {input_type case_type return_type : Type}
    (predicate : input_type → case_type → Bool) (input : input_type)
    (default_func : Unit → return_type) :
    ∀ (cases : List (case_type × (Unit → return_type))) (i m : Nat),
      firstTrueIdx (fun c => predicate input c.1) cases = some m →
      ∃ c, cases[m]? = some c ∧ predicate input c.1 = true ∧
        switchlikeGo predicate input default_func i cases
          = ((c.2) (), falseRun i m ++ [Ev.pred (i + m) true, Ev.prod (i + m)]) := by
  intro cases
  induction cases with
  | nil => intro i m h; simp [firstTrueIdx] at h
  | cons c rest ih =>
    intro i m h
    cases hc : predicate input c.1 with
    | true =>
      simp [firstTrueIdx, hc] at h
      subst h
      exact ⟨c, by simp, hc, by simp [switchlikeGo, hc, falseRun]⟩
    | false =>
      simp [firstTrueIdx, hc, Option.map_eq_some'] at h
      obtain ⟨m', hm', rfl⟩ := h
      obtain ⟨cc, hcc, hpcc, hgo⟩ := ih (i + 1) m' hm'
      refine ⟨cc, by simpa using hcc, hpcc, ?_⟩
      have harith : i + 1 + m' = i + (m' + 1) := by omega
      simp [switchlikeGo, hc, hgo, falseRun_succ, harith]

/-- The plain dispatcher returns the first component of the instrumented
one, whatever the starting index. -/
theorem switchlike_eq_go_fst {input_type case_type return_type : Type}
    (predicate : input_type → case_type → Bool) (input : input_type)
    (default_func : Unit → return_type) :
    ∀ (cases : List (case_type × (Unit → return_type))) (i : Nat),
      switchlike input cases default_func predicate
        = (switchlikeGo predicate input default_func i cases).1 := by
  intro cases
  induction cases with
  | nil => intro i; rfl
  | cons c rest ih =>
    intro i
    cases hc : predicate input c.1 with
    | true => simp [switchlike, switchlikeGo, hc]
    | false => simp [switchlike, switchlikeGo, hc, ih (i + 1)]

/-- Complete characterisation of error flow through the failure-aware loop:
either every call returned normally and the result is a normal value, or
some call raised an error, that error is the result delivered to the
caller unchanged, the raising call is the last event of the trace, and
every call before it returned normally. -/
theorem switchlikeEGo_error_split {input_type case_type return_type err_type : Type}
    (predicate : input_type → case_type → Except err_type Bool)
    (input : input_type)
    (default_func : Unit → Except err_type return_type) :
    ∀ (cases : List (case_type × (Unit → Except err_type return_type))) (i : Nat),
      (∃ r, (switchlikeEGo predicate input default_func i cases).1 = Except.ok r ∧
        ∀ ev ∈ (switchlikeEGo predicate input default_func i cases).2, evErr ev = none)
      ∨ (∃ e pre evt,
          (switchlikeEGo predicate input default_func i cases).1 = Except.error e ∧
          (switchlikeEGo predicate input default_func i cases).2 = pre ++ [evt] ∧
          evErr evt = some e ∧ ∀ ev ∈ pre, evErr ev = none) := by
  intro cases
  induction cases with
  | nil =>
    intro i
    cases hd : default_func () with
    | ok r =>
      exact Or.inl ⟨r, by simp [switchlikeEGo, hd], by simp [switchlikeEGo, hd, evErr]⟩
    | error e =>
      exact Or.inr ⟨e, [], EvE.defltErr e, by simp [switchlikeEGo, hd],
        by simp [switchlikeEGo, hd], rfl, by simp⟩
  | cons c rest ih =>
    intro i
    cases hp : predicate input c.1 with
    | error e =>
      exact Or.inr ⟨e, [], EvE.predErr i e, by simp [switchlikeEGo, hp],
        by simp [switchlikeEGo, hp], rfl, by simp⟩
    | ok b =>
      cases b with
      | true =>
        cases hprod : (c.2) () with
        | ok r =>
          exact Or.inl ⟨r, by simp [switchlikeEGo, hp, hprod],
            by simp [switchlikeEGo, hp, hprod, evErr]⟩
        | error e =>
          exact Or.inr ⟨e, [EvE.predOk i true], EvE.prodErr i e,
            by simp [switchlikeEGo, hp, hprod],
            by simp [switchlikeEGo, hp, hprod], rfl, by simp [evErr]⟩
      | false =>
        rcases ih (i + 1) with ⟨r, hr, htr⟩ | ⟨e, pre, evt, he, htr, hevt, hpre⟩
        · refine Or.inl ⟨r, by simp [switchlikeEGo, hp, hr], ?_⟩
          intro ev hev
          simp [switchlikeEGo, hp] at hev
          rcases hev with rfl | hev
          · rfl
          · exact htr ev hev
        · refine Or.inr ⟨e, EvE.predOk i false :: pre, evt,
            by simp [switchlikeEGo, hp, he], by simp [switchlikeEGo, hp, htr], hevt, ?_⟩
          intro ev hev
          rcases List.mem_cons.mp hev with rfl | hev
          · rfl
          · exact hpre ev hev

/-- The failure-aware loop makes at most one call per case plus one final
call: the trace never has more events than the number of cases plus one. -/
theorem switchlikeEGo_length {input_type case_type return_type err_type : Type}
    (predicate : input_type → case_type → Except err_type Bool)
    (input : input_type)
    (default_func : Unit → Except err_type return_type) :
    ∀ (cases : List (case_type × (Unit → Except err_type return_type))) (i : Nat),
      (switchlikeEGo predicate input default_func i cases).2.length
        ≤ cases.length + 1 := by
  intro cases
  induction cases with
  | nil =>
    intro i
    cases hd : default_func () <;> simp [switchlikeEGo, hd]
  | cons c rest ih =>
    intro i
    cases hp : predicate input c.1 with
    | error e => simp [switchlikeEGo, hp]
    | ok b =>
      cases b with
      | true =>
        cases hprod : (c.2) () <;> simp [switchlikeEGo, hp, hprod]
      | false =>
        have := ih (i + 1)
        simp [switchlikeEGo, hp]
        omega

/-- Corollary of `switchlikeGo_none` at starting index zero, phrased over
`switchlikeT`. -/
theorem switchlikeT_none {input_type case_type return_type : Type}
    (input : input_type) (cases : List (case_type × (Unit → return_type)))
    (default_func : Unit → return_type)
    (predicate : input_type → case_type → Bool)
    (h : firstTrueIdx (fun c => predicate input c.1) cases = none) :
    switchlikeT input cases default_func predicate
      = (default_func (), falseRun 0 cases.length ++ [Ev.deflt]) :=
  switchlikeGo_none predicate input default_func cases 0 h

/-- Corollary of `switchlikeGo_some` at starting index zero, phrased over
`switchlikeT`. -/
theorem switchlikeT_some {input_type case_type return_type : Type}
    (input : input_type) (cases : List (case_type × (Unit → return_type)))
    (default_func : Unit → return_type)
    (predicate : input_type → case_type → Bool) (m : Nat)
    (h : firstTrueIdx (fun c => predicate input c.1) cases = some m) :
    ∃ c, cases[m]? = some c ∧ predicate input c.1 = true ∧
      switchlikeT input cases default_func predicate
        = ((c.2) (), falseRun 0 m ++ [Ev.pred m true, Ev.prod m]) := by
  obtain ⟨c, h1, h2, h3⟩ := switchlikeGo_some predicate input default_func cases 0 m h
  refine ⟨c, h1, h2, ?_⟩
  show switchlikeGo predicate input default_func 0 cases = _
  simpa using h3

/-- The plain dispatcher is the result component of the instrumented one. -/
theorem switchlike_eq_T_fst {input_type case_type return_type : Type}
    (input : input_type) (cases : List (case_type × (Unit → return_type)))
    (default_func : Unit → return_type)
    (predicate : input_type → case_type → Bool) :
    switchlike input cases default_func predicate
      = (switchlikeT input cases default_func predicate).1 :=
  switchlike_eq_go_fst predicate input default_func cases 0

/-- A failed run contains no producer invocation. -/
theorem countP_falseRun : ∀ (n i : Nat),
    (falseRun i n).countP isProducerEv = 0 := by
  intro n
  induction n with
  | zero => intro i; rfl
  | succ n ih => intro i; rw [falseRun_succ]; simp [List.countP_cons, isProducerEv, ih]

/-- The default-producer event never occurs in a failed run. -/
theorem deflt_not_mem_falseRun {i n : Nat} : Ev.deflt ∉ falseRun i n := by
  intro h
  obtain ⟨t, ht⟩ := mem_falseRun h
  exact Ev.noConfusion ht

/-- A producer event never occurs in a failed run. -/
theorem prod_not_mem_falseRun {j i n : Nat} : Ev.prod j ∉ falseRun i n := by
  intro h
  obtain ⟨t, ht⟩ := mem_falseRun h
  exact Ev.noConfusion ht

/-- C1: for every input, case sequence, default producer and predicate, a
call to switchlike invokes exactly one producer, namely the producer of the
first case whose predicate call returns true, or the default producer if no
predicate call returns true. -/
theorem switchlike_exactly_one_producer {input_type case_type return_type : Type}
    (input : input_type) (cases : List (case_type × (Unit → return_type)))
    (default_func : Unit → return_type)
    (predicate : input_type → case_type → Bool) :
    (switchlikeT input cases default_func predicate).2.countP isProducerEv = 1
    ∧ (match firstTrueIdx (fun c => predicate input c.1) cases with
       | some m => Ev.prod m ∈ (switchlikeT input cases default_func predicate).2
       | none => Ev.deflt ∈ (switchlikeT input cases default_func predicate).2) := by
  cases h : firstTrueIdx (fun c => predicate input c.1) cases with
  | none =>
    rw [switchlikeT_none input cases default_func predicate h]
    constructor
    · simp [List.countP_append, countP_falseRun, List.countP_cons, isProducerEv]
    · simp
  | some m =>
    obtain ⟨c, hc, hpc, hT⟩ := switchlikeT_some input cases default_func predicate m h
    rw [hT]
    constructor
    · simp [List.countP_append, countP_falseRun, List.countP_cons, isProducerEv]
    · simp

/-- C2: when the cases at positions i and j both satisfy the predicate
against the input and i comes first, the producer of any such later case j
is never invoked; the invoked producer is that of the first matching case,
whose position is at most i, and the call returns its result. -/
theorem switchlike_first_match_wins {input_type case_type return_type : Type}
    (input : input_type) (cases : List (case_type × (Unit → return_type)))
    (default_func : Unit → return_type)
    (predicate : input_type → case_type → Bool) (i j : Nat) (hij : i < j)
    (hi : ∃ ci, cases[i]? = some ci ∧ predicate input ci.1 = true)
    (hj : ∃ cj, cases[j]? = some cj ∧ predicate input cj.1 = true) :
    Ev.prod j ∉ (switchlikeT input cases default_func predicate).2
    ∧ ∃ m cm, m ≤ i
        ∧ firstTrueIdx (fun c => predicate input c.1) cases = some m
        ∧ cases[m]? = some cm
        ∧ Ev.prod m ∈ (switchlikeT input cases default_func predicate).2
        ∧ (switchlikeT input cases default_func predicate).1 = (cm.2) () := by
  obtain ⟨ci, hci, hpi⟩ := hi
  obtain ⟨m, hmi, hfirst⟩ :=
    firstTrueIdx_le_of_true (fun c => predicate input c.1) hci hpi
  obtain ⟨cm, hcm, hpcm, hT⟩ :=
    switchlikeT_some input cases default_func predicate m hfirst
  rw [hT]
  constructor
  · intro hmem
    simp [List.mem_append] at hmem
    rcases hmem with hmem | hmem
    · exact prod_not_mem_falseRun hmem
    · omega
  · exact ⟨m, cm, hmi, hfirst, hcm, by simp, rfl⟩

/-- C2 witness: input 1 with cases keyed 0, 1, 1 under the equality
predicate; the third case also matches but its producer is not invoked. -/
theorem switchlike_first_match_wins_witness :
    Ev.prod 2 ∉ (switchlikeT (1 : Nat)
      [((0 : Nat), fun _ => (7 : Nat)), (1, fun _ => 10), (1, fun _ => 20)]
      (fun _ => 0) (fun a b => a == b)).2 :=
  (switchlike_first_match_wins 1
    [((0 : Nat), fun _ => (7 : Nat)), (1, fun _ => 10), (1, fun _ => 20)]
    (fun _ => 0) (fun a b => a == b) 1 2 (by omega)
    ⟨(1, fun _ => 10), rfl, rfl⟩ ⟨(1, fun _ => 20), rfl, rfl⟩).1

/-- C3: when the first matching case has position m, the trace of a call is
exactly one failed predicate call for each earlier case in left-to-right
order, then the successful predicate call at m, then the invocation of the
producer of case m: no predicate or producer of any later case runs, and
the default producer is not invoked. -/
theorem switchlike_short_circuit {input_type case_type return_type : Type}
    (input : input_type) (cases : List (case_type × (Unit → return_type)))
    (default_func : Unit → return_type)
    (predicate : input_type → case_type → Bool) (m : Nat)
    (hm : firstTrueIdx (fun c => predicate input c.1) cases = some m) :
    (switchlikeT input cases default_func predicate).2
      = ((List.range m).map fun t => Ev.pred t false)
        ++ [Ev.pred m true, Ev.prod m] := by
  obtain ⟨c, hc, hpc, hT⟩ :=
    switchlikeT_some input cases default_func predicate m hm
  rw [hT, falseRun_eq_map m 0]
  simp

/-- C3 witness: input 5 against keys 0, 5, 9 under the equality predicate;
the trace is one failed call on case 0, the successful call on case 1 and
the producer invocation of case 1. -/
theorem switchlike_short_circuit_witness :
    (switchlikeT (5 : Nat)
      [((0 : Nat), fun _ => (1 : Nat)), (5, fun _ => 2), (9, fun _ => 3)]
      (fun _ => 0) (fun a b => a == b)).2
      = ((List.range 1).map fun t => Ev.pred t false)
        ++ [Ev.pred 1 true, Ev.prod 1] :=
  switchlike_short_circuit 5
    [((0 : Nat), fun _ => (1 : Nat)), (5, fun _ => 2), (9, fun _ => 3)]
    (fun _ => 0) (fun a b => a == b) 1 rfl

/-- Under the default predicate the dispatcher reduces to a lookup of the
first case whose key is equal to the input, the host equality being `eq`
with the key on the left. -/
theorem switchlike_default_predicate_find {input_type case_type return_type : Type}
    (eq : case_type → input_type → Bool) (input : input_type)
    (default_func : Unit → return_type) :
    ∀ cases : List (case_type × (Unit → return_type)),
      switchlike input cases default_func (default_predicate eq)
        = (match List.find? (fun c => eq c.1 input) cases with
           | some c => (c.2) ()
           | none => default_func ()) := by
  intro cases
  induction cases with
  | nil => rfl
  | cons c rest ih =>
    cases hc : eq c.1 input with
    | true => simp [switchlike, default_predicate, hc, List.find?_cons]
    | false => simp [switchlike, default_predicate, hc, List.find?_cons, ih]

/-- Skipping the default producer under the default predicate is
equivalent to some case key passing the equality test, over any case
list. -/
theorem switchlike_default_predicate_deflt_iff {input_type case_type return_type : Type}
    (eq : case_type → input_type → Bool) (input : input_type)
    (cases : List (case_type × (Unit → return_type)))
    (default_func : Unit → return_type) :
    (∃ c ∈ cases, eq c.1 input = true)
      ↔ Ev.deflt ∉
          (switchlikeT input cases default_func (default_predicate eq)).2 := by
  cases h : firstTrueIdx (fun c => default_predicate eq input c.1) cases with
  | none =>
    rw [switchlikeT_none input cases default_func (default_predicate eq) h]
    have hall := firstTrueIdx_eq_none.mp h
    simp only [List.mem_append, List.mem_singleton]
    constructor
    · rintro ⟨c, hcmem, hceq⟩
      have hfalse := hall c hcmem
      simp [default_predicate] at hfalse
      rw [hfalse] at hceq
      exact Bool.noConfusion hceq
    · intro hnot
      exact absurd (Or.inr trivial) hnot
  | some m =>
    obtain ⟨cm, hcm, hpcm, hT⟩ :=
      switchlikeT_some input cases default_func (default_predicate eq) m h
    rw [hT]
    have hmem : cm ∈ cases := by
      rcases List.getElem?_eq_some_iff.mp hcm with ⟨hlt, hget⟩
      rw [← hget]
      exact List.getElem_mem hlt
    have heq : eq cm.1 input = true := hpcm
    constructor
    · intro _
      intro hdeflt
      rcases List.mem_append.mp hdeflt with hd | hd
      · exact deflt_not_mem_falseRun hd
      · simp at hd
    · intro _
      exact ⟨cm, hmem, heq⟩

/-- The conversion-explicit instrumented loop is the plain instrumented
loop run on the case list with every key round-tripped through the input
type. -/
theorem switchlikeConvGo_eq_map {input_type case_type return_type : Type}
    (convKI : case_type → input_type) (convIK : input_type → case_type)
    (predicate : input_type → case_type → Bool) (input : input_type)
    (default_func : Unit → return_type) :
    ∀ (cases : List (case_type × (Unit → return_type))) (i : Nat),
      switchlikeConvGo convKI convIK predicate input default_func i cases
        = switchlikeGo predicate input default_func i
            (cases.map fun c => (convIK (convKI c.1), c.2)) := by
  intro cases
  induction cases with
  | nil => intro i; rfl
  | cons c rest ih =>
    intro i
    cases hc : predicate input (convIK (convKI c.1)) with
    | true => simp [switchlikeConvGo, switchlikeGo, hc]
    | false => simp [switchlikeConvGo, switchlikeGo, hc, ih]

/-- Corollary of `switchlikeConvGo_eq_map` at starting index zero. -/
theorem switchlikeConvT_eq_map {input_type case_type return_type : Type}
    (convKI : case_type → input_type) (convIK : input_type → case_type)
    (input : input_type)
    (cases : List (case_type × (Unit → return_type)))
    (default_func : Unit → return_type)
    (predicate : input_type → case_type → Bool) :
    switchlikeConvT convKI convIK input cases default_func predicate
      = switchlikeT input (cases.map fun c => (convIK (convKI c.1), c.2))
          default_func predicate :=
  switchlikeConvGo_eq_map convKI convIK predicate input default_func cases 0

/-- Under the default predicate the conversion-explicit dispatcher reduces
to a lookup of the first case whose round-tripped key is equal to the
input, the host equality being `eq` with the key on the left. -/
theorem switchlikeConv_default_find {input_type case_type return_type : Type}
    (convKI : case_type → input_type) (convIK : input_type → case_type)
    (eq : case_type → input_type → Bool) (input : input_type)
    (default_func : Unit → return_type) :
    ∀ cases : List (case_type × (Unit → return_type)),
      switchlikeConv convKI convIK input cases default_func
          (default_predicate eq)
        = (match List.find? (fun c => eq (convIK (convKI c.1)) input) cases with
           | some c => (c.2) ()
           | none => default_func ()) := by
  intro cases
  induction cases with
  | nil => rfl
  | cons c rest ih =>
    cases hc : eq (convIK (convKI c.1)) input with
    | true => simp [switchlikeConv, default_predicate, hc, List.find?_cons]
    | false => simp [switchlikeConv, default_predicate, hc, List.find?_cons, ih]

/-- Under the default predicate the conversion-explicit dispatcher skips
the default producer exactly when some round-tripped key is equal to the
input. -/
theorem switchlikeConvT_default_deflt_iff {input_type case_type return_type : Type}
    (convKI : case_type → input_type) (convIK : input_type → case_type)
    (eq : case_type → input_type → Bool) (input : input_type)
    (cases : List (case_type × (Unit → return_type)))
    (default_func : Unit → return_type) :
    (∃ c ∈ cases, eq (convIK (convKI c.1)) input = true)
      ↔ Ev.deflt ∉ (switchlikeConvT convKI convIK input cases default_func
          (default_predicate eq)).2 := by
  rw [switchlikeConvT_eq_map convKI convIK input cases default_func
    (default_predicate eq)]
  refine Iff.trans ?_
    (switchlike_default_predicate_deflt_iff eq input _ default_func)
  constructor
  · rintro ⟨b, hb, hbeq⟩
    exact ⟨(convIK (convKI b.1), b.2), List.mem_map_of_mem _ hb, hbeq⟩
  · rintro ⟨c, hcmem, hceq⟩
    rcases List.mem_map.mp hcmem with ⟨b, hb, rfl⟩
    exact ⟨b, hb, hceq⟩

/-- C4, amended: when the predicate argument is omitted the source
installs the equality test of lines 127 to 130, but the loop of line 132
hands it the key round-tripped through the input type, so a call selects
precisely the first case whose round-tripped key is equal, by the host
equality `eq` with the key on the left, to the input: the result is what
that case produces, or the default when no round-tripped key is equal,
and the default producer is skipped exactly when some round-tripped key
is equal to the input. When the two conversions are identities, which
covers identical key and input types, this is selection by equality of
the original key and the input. -/
theorem switchlike_default_predicate_selects_equal_roundtrip
    {input_type case_type return_type : Type}
    (convKI : case_type → input_type) (convIK : input_type → case_type)
    (eq : case_type → input_type → Bool) (input : input_type)
    (cases : List (case_type × (Unit → return_type)))
    (default_func : Unit → return_type) :
    switchlikeConv convKI convIK input cases default_func
        (default_predicate eq)
      = (match List.find? (fun c => eq (convIK (convKI c.1)) input) cases with
         | some c => (c.2) ()
         | none => default_func ())
    ∧ ((∃ c ∈ cases, eq (convIK (convKI c.1)) input = true)
        ↔ Ev.deflt ∉ (switchlikeConvT convKI convIK input cases default_func
            (default_predicate eq)).2)
    ∧ (∀ (t r : Type) (eq2 : t → t → Bool) (inp : t)
        (cs : List (t × (Unit → r))) (d : Unit → r),
        switchlikeConv id id inp cs d (default_predicate eq2)
          = (match List.find? (fun c => eq2 c.1 inp) cs with
             | some c => (c.2) ()
             | none => d ())
        ∧ ((∃ c ∈ cs, eq2 c.1 inp = true)
            ↔ Ev.deflt ∉
                (switchlikeConvT id id inp cs d (default_predicate eq2)).2)) := by
  refine ⟨switchlikeConv_default_find convKI convIK eq input default_func cases,
    switchlikeConvT_default_deflt_iff convKI convIK eq input cases default_func,
    ?_⟩
  intro t r eq2 inp cs d
  exact ⟨switchlikeConv_default_find id id eq2 inp d cs,
    switchlikeConvT_default_deflt_iff id id eq2 inp cs d⟩

/-- C4 counterexample: with input type Nat, key type Int, the line-132
conversions Int.toNat and Int.ofNat, and the predicate omitted, the
single case keyed -1 is selected for input 0 and its producer supplies
the result, although the host equality between the original key -1 and
the input 0 is false: selection follows the round-tripped key, not the
original key, so the claim as stated fails on the code. -/
theorem switchlike_default_predicate_key_cex :
    Ev.prod 0 ∈ (switchlikeConvT Int.toNat Int.ofNat (0 : Nat)
        [((-1 : Int), fun _ => (1 : Nat))] (fun _ => 0)
        (default_predicate (fun k i => k == Int.ofNat i))).2
    ∧ switchlikeConv Int.toNat Int.ofNat (0 : Nat)
        [((-1 : Int), fun _ => (1 : Nat))] (fun _ => 0)
        (default_predicate (fun k i => k == Int.ofNat i)) = 1
    ∧ (fun (k : Int) (i : Nat) => k == Int.ofNat i) (-1) 0 = false := by
  decide

/-- C5: with an empty case sequence the call invokes the default producer
and returns its result, for every input, default producer and predicate;
in particular input 7 with no cases and an integer default producer
returning 42 yields 42, whatever the predicate. -/
theorem switchlike_empty_cases {input_type case_type return_type : Type}
    (input : input_type) (default_func : Unit → return_type)
    (predicate : input_type → case_type → Bool) :
    switchlikeT input ([] : List (case_type × (Unit → return_type)))
        default_func predicate
      = (default_func (), [Ev.deflt])
    ∧ ∀ q : Int → Int → Bool,
        switchlike (7 : Int) ([] : List (Int × (Unit → Int))) (fun _ => 42) q
          = 42 :=
  ⟨rfl, fun _ => rfl⟩

/-- C7: no error raised by a predicate, a case producer or the default
producer is caught, suppressed or transformed: either every call of the
dispatch returned normally and the result is a normal value, or the first
raising call is the last event of the call, nothing runs after it, and the
raised error is, unchanged, the result delivered to the caller. -/
theorem switchlike_exception_propagation {input_type case_type return_type err_type : Type}
    (input : input_type)
    (cases : List (case_type × (Unit → Except err_type return_type)))
    (default_func : Unit → Except err_type return_type)
    (predicate : input_type → case_type → Except err_type Bool) :
    (∃ r, (switchlikeET input cases default_func predicate).1 = Except.ok r
      ∧ ∀ ev ∈ (switchlikeET input cases default_func predicate).2,
          evErr ev = none)
    ∨ (∃ e pre evt,
        (switchlikeET input cases default_func predicate).1 = Except.error e
        ∧ (switchlikeET input cases default_func predicate).2 = pre ++ [evt]
        ∧ evErr evt = some e
        ∧ ∀ ev ∈ pre, evErr ev = none) :=
  switchlikeEGo_error_split predicate input default_func cases 0

/-- C8: a call over a finite case sequence terminates after at most one
call per case plus one final call, and its outcome is either a normal
result or a propagated failure of a predicate or producer. -/
theorem switchlike_terminates {input_type case_type return_type err_type : Type}
    (input : input_type)
    (cases : List (case_type × (Unit → Except err_type return_type)))
    (default_func : Unit → Except err_type return_type)
    (predicate : input_type → case_type → Except err_type Bool) :
    (switchlikeET input cases default_func predicate).2.length ≤ cases.length + 1
    ∧ ((∃ r, (switchlikeET input cases default_func predicate).1 = Except.ok r)
      ∨ (∃ e, (switchlikeET input cases default_func predicate).1
            = Except.error e)) := by
  refine ⟨switchlikeEGo_length predicate input default_func cases 0, ?_⟩
  cases h : (switchlikeET input cases default_func predicate).1 with
  | ok r => exact Or.inl ⟨r, rfl⟩
  | error e => exact Or.inr ⟨e, rfl⟩

/-- C9: the default predicate of lines 127 to 130 evaluates the host
equality with the case key as the left operand and the input as the right
operand; when the host equality is symmetric this coincides with the
input-on-the-left comparison, but in general the two orders differ and the
source evaluates key-on-the-left. -/
theorem default_predicate_operand_order :
    (∀ (input_type case_type : Type) (eq : case_type → input_type → Bool)
        (a : input_type) (b : case_type),
        default_predicate eq a b = eq b a)
    ∧ (∃ (eq : Nat → Nat → Bool) (a b : Nat),
        default_predicate eq a b ≠ eq a b)
    ∧ (∀ (t : Type) (eq : t → t → Bool),
        (∀ x y, eq x y = eq y x) →
        ∀ (a b : t), default_predicate eq a b = eq a b) := by
  refine ⟨fun _ _ _ _ _ => rfl,
    ⟨fun a b => decide (a < b), 0, 1, by decide⟩, ?_⟩
  intro t eq hsym a b
  exact hsym b a

/-- The conversion-explicit loop behaves as the plain loop run on the case
list whose every key has been round-tripped through the input type. -/
theorem switchlikeConv_map {input_type case_type return_type : Type}
    (convKI : case_type → input_type) (convIK : input_type → case_type)
    (input : input_type) (default_func : Unit → return_type)
    (predicate : input_type → case_type → Bool) :
    ∀ cases : List (case_type × (Unit → return_type)),
      switchlikeConv convKI convIK input cases default_func predicate
        = switchlike input (cases.map fun c => (convIK (convKI c.1), c.2))
            default_func predicate := by
  intro cases
  induction cases with
  | nil => rfl
  | cons c rest ih =>
    cases hc : predicate input (convIK (convKI c.1)) with
    | true => simp [switchlikeConv, switchlike, hc]
    | false => simp [switchlikeConv, switchlike, hc, ih]

/-- With identity conversions the conversion-explicit loop is the plain
loop: the predicate receives each key unchanged. -/
theorem switchlikeConv_id {input_type return_type : Type}
    (input : input_type) (default_func : Unit → return_type)
    (predicate : input_type → input_type → Bool) :
    ∀ cases : List (input_type × (Unit → return_type)),
      switchlikeConv id id input cases default_func predicate
        = switchlike input cases default_func predicate := by
  intro cases
  induction cases with
  | nil => rfl
  | cons c rest ih =>
    cases hc : predicate input c.1 with
    | true => simp [switchlikeConv, switchlike, hc]
    | false => simp [switchlikeConv, switchlike, hc, ih]

/-- C10: the loop of line 132 copies every case into a pair whose key
component has the input type, so each key is converted to the input type
and back to the key type before the predicate observes it; the behaviour
equals the plain loop on the round-tripped keys, it equals the plain loop
itself whenever the conversions are identities, which covers identical key
and input types, and for genuinely converting conversions the round trip
is observable. -/
theorem switchlike_key_conversion {input_type case_type return_type : Type}
    (convKI : case_type → input_type) (convIK : input_type → case_type)
    (input : input_type)
    (cases : List (case_type × (Unit → return_type)))
    (default_func : Unit → return_type)
    (predicate : input_type → case_type → Bool) :
    switchlikeConv convKI convIK input cases default_func predicate
      = switchlike input (cases.map fun c => (convIK (convKI c.1), c.2))
          default_func predicate
    ∧ (∀ (t r : Type) (input2 : t) (cases2 : List (t × (Unit → r)))
        (d2 : Unit → r) (p2 : t → t → Bool),
        switchlikeConv id id input2 cases2 d2 p2
          = switchlike input2 cases2 d2 p2)
    ∧ (∃ (cKI : Int → Nat) (cIK : Nat → Int) (inp : Nat)
        (cs : List (Int × (Unit → Nat))) (d : Unit → Nat)
        (p : Nat → Int → Bool),
        switchlikeConv cKI cIK inp cs d p ≠ switchlike inp cs d p) := by
  refine ⟨switchlikeConv_map convKI convIK input default_func predicate cases,
    fun t r input2 cases2 d2 p2 =>
      switchlikeConv_id input2 d2 p2 cases2, ?_⟩
  exact ⟨Int.toNat, Int.ofNat, 0, [((-1 : Int), fun _ => 1)], fun _ => 0,
    fun a b => b == Int.ofNat a, by decide⟩
